import Mathlib

set_option autoImplicit false

namespace Kbd

/-! # Shallow embedding of `rm-xochitl-kbdpatch` (src/rm-xochitl-kbdpatch/src/main.rs)

Byte strings are `List Nat` (each entry one byte of the file).  JSON documents
(`serde_json::Value`) are the inductive `JVal`.  The external collaborators of
the program — the zstd compressor/decompressor, the JSON (de)serializer and the
SHA-256 hash — are threaded through as function parameters (a `Codec`), since
their code is not part of this repository; everything else is translated from
the Rust source. -/

/-- Model of a `serde_json::Value`.  Objects are association lists of fields;
lookup takes the first match and insertion replaces in place or appends. -/
inductive JVal where
  | null
  | bool (b : Bool)
  | num (n : Int)
  | str (s : String)
  | arr (xs : List JVal)
  | obj (fs : List (String × JVal))

deriving instance DecidableEq for Except

mutual

/-- Structural equality on documents, modelling `PartialEq` of `serde_json::Value`
(used by `verify_one`'s `got != plan.after`). -/
def JVal.beq : JVal → JVal → Bool
  | .null, .null => true
  | .bool x, .bool y => x == y
  | .num x, .num y => x == y
  | .str x, .str y => x == y
  | .arr xs, .arr ys => JVal.beqArr xs ys
  | .obj fs, .obj gs => JVal.beqObj fs gs
  | _, _ => false

def JVal.beqArr : List JVal → List JVal → Bool
  | [], [] => true
  | x :: xs, y :: ys => JVal.beq x y && JVal.beqArr xs ys
  | _, _ => false

def JVal.beqObj : List (String × JVal) → List (String × JVal) → Bool
  | [], [] => true
  | (k, v) :: fs, (k2, v2) :: gs => k == k2 && JVal.beq v v2 && JVal.beqObj fs gs
  | _, _ => false

end

/-- First-match field lookup in a JSON object (`Map::get`). -/
def lookupField : List (String × JVal) → String → Option JVal
  | [], _ => none
  | (k2, v) :: rest, k => if k2 = k then some v else lookupField rest k

/-- Replace-or-append field insertion in a JSON object (`Map::insert`). -/
def insertField : List (String × JVal) → String → JVal → List (String × JVal)
  | [], k, v => [(k, v)]
  | (k2, v2) :: rest, k, v =>
    if k2 = k then (k, v) :: rest else (k2, v2) :: insertField rest k v

/-- The `Value::get(field)`: `None` unless the value is an object holding the field. -/
def getField : JVal → String → Option JVal
  | .obj fs, k => lookupField fs k
  | _, _ => none

/-- The `Value::as_array`. -/
def asArray : JVal → Option (List JVal)
  | .arr xs => some xs
  | _ => none

/-- The `Value::as_str`. -/
def asStr : JVal → Option String
  | .str s => some s
  | _ => none

/-- The `Value::as_object`. -/
def asObj : JVal → Option (List (String × JVal))
  | .obj fs => some fs
  | _ => none

/-! ## Byte-level utilities -/

/-- The zstd stream magic `\x28\xb5\x2f\xfd` (`MAGIC_ZSTD`). -/
def MAGIC_ZSTD : List Nat := [0x28, 0xb5, 0x2f, 0xfd]

/-- The `STATE_SCHEMA` tag of the idempotency record. -/
def STATE_SCHEMA : String := "kbdpatch-state-v2"

/-- Little-endian 4-byte encoding of a 32-bit value (`u32::to_le_bytes`). -/
def u32le (n : Nat) : List Nat :=
  [n % 256, n / 256 % 256, n / 65536 % 256, n / 16777216 % 256]

/-- Slice `bytes[p .. p+len]` of a byte string. -/
def sliceBytes (bytes : List Nat) (p len : Nat) : List Nat :=
  (bytes.drop p).take len

/-- The `starts_with` on byte strings. -/
def startsWithBytes (b pre : List Nat) : Bool :=
  b.take pre.length == pre

/-- Overwrite the window starting at `off` with `payload` (the file write of
`apply_in_place` / `rollback_in_place` at `SeekFrom::Start(off)`). -/
def writeAt (file : List Nat) (off : Nat) (payload : List Nat) : List Nat :=
  file.take off ++ payload ++ file.drop (off + payload.length)

/-- The `read_u32_be`: big-endian read of 4 bytes at `off`, erring when out of range. -/
def read_u32_be (bytes : List Nat) (off : Nat) : Option Nat :=
  if off + 4 ≤ bytes.length then
    match sliceBytes bytes off 4 with
    | [b0, b1, b2, b3] => some (b0 * 16777216 + b1 * 65536 + b2 * 256 + b3)
    | _ => none
  else none

/-- The `read_u32_le`: little-endian read of 4 bytes at `off`, erring when out of range. -/
def read_u32_le (bytes : List Nat) (off : Nat) : Option Nat :=
  if off + 4 ≤ bytes.length then
    match sliceBytes bytes off 4 with
    | [b0, b1, b2, b3] => some (b3 * 16777216 + b2 * 65536 + b1 * 256 + b0)
    | _ => none
  else none

/-- The external collaborators of the program: zstd compression at an effort
level, zstd decompression of a stream sequence, JSON parsing and canonical
JSON serialization, and the SHA-256 content hash.  They are libraries outside
this repository, so they are parameters of the model. -/
structure Codec where
  compress : Int → List Nat → List Nat
  decompress : List Nat → Option (List Nat)
  parse : List Nat → Option JVal
  serialize : JVal → List Nat
  hash : List Nat → List Nat

/-- Decompress then parse, the decode pipeline shared by `scan_keyboard_json`,
`load_candidate_at` and `verify_one`. -/
def decode_payload (c : Codec) (payload : List Nat) : Option JVal :=
  (c.decompress payload).bind c.parse

/-! ## Mapping engine -/

/-- The `HashMap<char, (String, String)>`: base letter to `(default, shifted)` glyphs.
Insertion prepends; lookup takes the first match, so a later insert wins, as
with `HashMap::insert`. -/
def LetterMap := List (Char × String × String)

def mapInsert (m : LetterMap) (ch : Char) (p : String × String) : LetterMap :=
  (ch, p) :: m

def mapGet (m : LetterMap) (ch : Char) : Option (String × String) :=
  match m with
  | [] => none
  | (c2, p) :: rest => if c2 = ch then some p else mapGet rest ch

/-- The `get0_str_val`: first element of the `field` array, as a string. -/
def get0_str_val (fs : List (String × JVal)) (field : String) : Option String :=
  ((lookupField fs field).bind asArray).bind (fun a => a.get? 0) |>.bind asStr

/-- The `ensure_one_char` (the Rust message also prints the string; elided here). -/
def ensure_one_char (s : String) : Except String Unit :=
  if s.length ≠ 1 then .error "expected 1 char" else .ok ()

/-- The `key_pair_from_val`: extract `(default, shifted)` from an override key;
`shifted` falls back to `default` when `get0_str_val` yields nothing for it. -/
def key_pair_from_val (v : JVal) : Except String (String × String) :=
  match asObj v with
  | none => .error "key not object"
  | some o =>
    if (lookupField o "special").isSome then .error "expected normal key, got special"
    else
      match get0_str_val o "default" with
      | none => .error "missing default[0]"
      | some def0 =>
        let sh0 := (get0_str_val o "shifted").getD def0
        match ensure_one_char def0 with
        | .error e => .error e
        | .ok _ =>
          match ensure_one_char sh0 with
          | .error e => .error e
          | .ok _ => .ok (def0, sh0)

/-- One row of `build_letter_mapping_de_de`: read the key at each listed
position and record its glyph pair under the listed base letter.  An
out-of-range index models the Rust panic of `r[i]` (unreachable after the
length checks of the caller). -/
def buildFromRow (row : List JVal) : List (Nat × Char) → LetterMap → Except String LetterMap
  | [], m => .ok m
  | (i, ch) :: rest, m =>
    match row.get? i with
    | none => .error "row index out of range"
    | some kv =>
      match key_pair_from_val kv with
      | .error e => .error e
      | .ok p => buildFromRow row rest (mapInsert m ch p)

def row0_positions_de : List (Nat × Char) :=
  [(0, 'q'), (1, 'w'), (2, 'e'), (3, 'r'), (4, 't'), (5, 'z'), (6, 'u'), (7, 'i'),
   (8, 'o'), (9, 'p'), (10, 'ü')]

def row1_positions_de : List (Nat × Char) :=
  [(0, 'a'), (1, 's'), (2, 'd'), (3, 'f'), (4, 'g'), (5, 'h'), (6, 'j'), (7, 'k'),
   (8, 'l'), (9, 'ö'), (10, 'ä')]

def row2_positions_de : List (Nat × Char) :=
  [(1, 'y'), (2, 'x'), (3, 'c'), (4, 'v'), (5, 'b'), (6, 'n'), (7, 'm')]

/-- The `build_letter_mapping_de_de`. -/
def build_letter_mapping_de_de (over : JVal) : Except String LetterMap :=
  match (getField over "alphabetic").bind asArray with
  | none => .error "override missing alphabetic"
  | some alpha =>
    if alpha.length ≠ 3 then .error "override alphabetic must have 3 rows"
    else
      match (alpha.get? 0).bind asArray with
      | none => .error "override row0 not array"
      | some r0 =>
        match (alpha.get? 1).bind asArray with
        | none => .error "override row1 not array"
        | some r1 =>
          match (alpha.get? 2).bind asArray with
          | none => .error "override row2 not array"
          | some r2 =>
            if r0.length < 11 then .error "override row0 too short"
            else if r1.length < 11 then .error "override row1 too short"
            else if r2.length < 8 then .error "override row2 too short"
            else
              match buildFromRow r0 row0_positions_de [] with
              | .error e => .error e
              | .ok m0 =>
                match buildFromRow r1 row1_positions_de m0 with
                | .error e => .error e
                | .ok m1 => buildFromRow r2 row2_positions_de m1

/-- The `build_letter_mapping`: registry keyed by locale string. -/
def build_letter_mapping (locale : String) (over : JVal) : Except String LetterMap :=
  if locale = "de_DE" then build_letter_mapping_de_de over
  else .error ("unsupported locale " ++ locale)

/-- The `validate_override`: object with an `alphabetic` array of exactly 3 rows. -/
def validate_override (over : JVal) : Except String Unit :=
  match asObj over with
  | none => .error "override not object"
  | some o =>
    match (lookupField o "alphabetic").bind asArray with
    | none => .error "override missing alphabetic[]"
    | some a => if a.length ≠ 3 then .error "override alphabetic must have 3 rows" else .ok ()

/-- The `validate_layout`: object with an `alphabetic` array of at least 3 rows. -/
def validate_layout (v : JVal) : Except String Unit :=
  match asObj v with
  | none => .error "layout not object"
  | some o =>
    match (lookupField o "alphabetic").bind asArray with
    | none => .error "missing alphabetic"
    | some a => if a.length < 3 then .error "alphabetic must have >= 3 rows" else .ok ()

/-- The `set_key_pair`: overwrite one key's `default`/`shifted` pair, reporting
whether the stored value changed. -/
def set_key_pair (key : JVal) (nd ns : String) : Except String (JVal × Bool) :=
  match asObj key with
  | none => .error "key not object"
  | some ko =>
    if (lookupField ko "special").isSome then .error "expected normal key, got special"
    else
      let cur_def0 := (get0_str_val ko "default").getD ""
      let cur_sh0 := (get0_str_val ko "shifted").getD cur_def0
      let cur_def_len := (((lookupField ko "default").bind asArray).map List.length).getD 0
      let cur_sh_len := (((lookupField ko "shifted").bind asArray).map List.length).getD 0
      if cur_def_len ≠ 1 ∨ cur_sh_len ≠ 1 ∨ cur_def0 ≠ nd ∨ cur_sh0 ≠ ns then
        .ok (.obj (insertField (insertField ko "default" (.arr [.str nd]))
          "shifted" (.arr [.str ns])), true)
      else .ok (key, false)

/-- One key of `apply_mapping_by_base_letter`'s scan: returns the (possibly
rewritten) key and its contribution to `(touched, changed)`. -/
def patchKey (mapping : LetterMap) (key : JVal) : JVal × Nat × Nat :=
  match asObj key with
  | none => (key, 0, 0)
  | some ko =>
    if (lookupField ko "special").isSome then (key, 0, 0)
    else
      match get0_str_val ko "default" with
      | none => (key, 0, 0)
      | some base_def0 =>
        if base_def0.length ≠ 1 then (key, 0, 0)
        else
          let ch := base_def0.toList.headD ' '
          let lookupKey := if ch.isAlpha then ch.toLower else ch
          match mapGet mapping lookupKey with
          | none => (key, 0, 0)
          | some (nd, ns) =>
            let cur_def0 := (get0_str_val ko "default").getD ""
            let cur_sh0 := (get0_str_val ko "shifted").getD cur_def0
            let cur_def_len := (((lookupField ko "default").bind asArray).map List.length).getD 0
            let cur_sh_len := (((lookupField ko "shifted").bind asArray).map List.length).getD 0
            if cur_def_len ≠ 1 ∨ cur_sh_len ≠ 1 ∨ cur_def0 ≠ nd ∨ cur_sh0 ≠ ns then
              (.obj (insertField (insertField ko "default" (.arr [.str nd]))
                "shifted" (.arr [.str ns])), 1, 1)
            else (key, 1, 0)

def patchKeys (mapping : LetterMap) : List JVal → List JVal × Nat × Nat
  | [] => ([], 0, 0)
  | k :: rest =>
    let r := patchKey mapping k
    let rr := patchKeys mapping rest
    (r.1 :: rr.1, r.2.1 + rr.2.1, r.2.2 + rr.2.2)

/-- The first-3-rows scan of `apply_mapping_by_base_letter`; a row that is not
an array is skipped. -/
def patchRows (mapping : LetterMap) : List JVal → List JVal × Nat × Nat
  | [] => ([], 0, 0)
  | r :: rest =>
    let pr : JVal × Nat × Nat :=
      match asArray r with
      | some ks =>
        let p := patchKeys mapping ks
        (.arr p.1, p.2.1, p.2.2)
      | none => (r, 0, 0)
    let rr := patchRows mapping rest
    (pr.1 :: rr.1, pr.2.1 + rr.2.1, pr.2.2 + rr.2.2)

/-- The `apply_mapping_by_base_letter` (primary policy). -/
def apply_mapping_by_base_letter (base : JVal) (mapping : LetterMap) :
    Except String (JVal × Nat × Nat) :=
  match asObj base with
  | none => .error "base not object"
  | some bo =>
    match (lookupField bo "alphabetic").bind asArray with
    | none => .error "base alphabetic not array"
    | some rows =>
      if rows.length < 3 then .error "base alphabetic < 3 rows"
      else
        let p := patchRows mapping (rows.take 3)
        .ok (.obj (insertField bo "alphabetic" (.arr (p.1 ++ rows.drop 3))), p.2.1, p.2.2)

/-- The per-position loop of `apply_mapping_by_position_de_de`: `set_key_pair`
at each listed index with the mapping entry of the listed letter.  Every
successful step counts as touched. -/
def applyPositions (mapping : LetterMap) (row : List JVal) :
    List (Nat × Char) → Except String (List JVal × Nat × Nat)
  | [] => .ok (row, 0, 0)
  | (i, ch) :: rest =>
    match mapGet mapping ch with
    | none => .error "mapping missing letter"
    | some (nd, ns) =>
      match row.get? i with
      | none => .error "row index out of range"
      | some key =>
        match set_key_pair key nd ns with
        | .error e => .error e
        | .ok (key2, did) =>
          match applyPositions mapping (row.set i key2) rest with
          | .error e => .error e
          | .ok (row2, t, c) => .ok (row2, t + 1, c + (if did then 1 else 0))

/-- The `apply_mapping_by_position_de_de` (fixed-position fallback policy).  The
three extra German keys are only written when the corresponding row is long
enough, exactly as in the source. -/
def apply_mapping_by_position_de_de (base : JVal) (mapping : LetterMap) :
    Except String (JVal × Nat × Nat) :=
  match asObj base with
  | none => .error "base not object"
  | some bo =>
    match (lookupField bo "alphabetic").bind asArray with
    | none => .error "base alphabetic not array"
    | some rows =>
      if rows.length < 3 then .error "base alphabetic < 3 rows"
      else
        match (rows.get? 0).bind asArray with
        | none => .error "row0 not array"
        | some row0 =>
          match (rows.get? 1).bind asArray with
          | none => .error "row1 not array"
          | some row1 =>
            match (rows.get? 2).bind asArray with
            | none => .error "row2 not array"
            | some row2 =>
              if row0.length < 10 then .error "row0 too short (need >= 10)"
              else if row1.length < 9 then .error "row1 too short (need >= 9)"
              else if row2.length < 8 then .error "row2 too short (need >= 8)"
              else
                match applyPositions mapping row0 ((row0_positions_de.take 10) ++
                    (if 11 ≤ row0.length then [((10 : Nat), 'ü')] else [])) with
                | .error e => .error e
                | .ok (row0b, t0, c0) =>
                  match applyPositions mapping row1 ((row1_positions_de.take 9) ++
                      (if 11 ≤ row1.length then [((9 : Nat), 'ö'), ((10 : Nat), 'ä')]
                       else [])) with
                  | .error e => .error e
                  | .ok (row1b, t1, c1) =>
                    match applyPositions mapping row2 row2_positions_de with
                    | .error e => .error e
                    | .ok (row2b, t2, c2) =>
                      .ok (.obj (insertField bo "alphabetic"
                          (.arr (((rows.set 0 (.arr row0b)).set 1 (.arr row1b)).set 2
                            (.arr row2b)))),
                        t0 + t1 + t2, c0 + c1 + c2)

/-- The `apply_mapping_by_position`: locale registry of the fallback policy. -/
def apply_mapping_by_position (locale : String) (base : JVal) (mapping : LetterMap) :
    Except String (JVal × Nat × Nat) :=
  if locale = "de_DE" then apply_mapping_by_position_de_de base mapping
  else .error ("unsupported locale " ++ locale)

/-- The `compute_after`: primary policy, then the fixed-position fallback — but only
when the caller allowed it and the primary touched zero keys. -/
def compute_after (before : JVal) (mapping : LetterMap) (locale : String)
    (allow_position_fallback : Bool) : Except String (JVal × Nat × Nat) :=
  match apply_mapping_by_base_letter before mapping with
  | .error e => .error e
  | .ok (after, touched, changed) =>
    if touched = 0 ∧ allow_position_fallback = true then
      apply_mapping_by_position locale after mapping
    else .ok (after, touched, changed)

/-! ## Signatures and candidate scoring -/

/-- The characters of one signature row: first default glyph of every normal
key whose default glyph is exactly one character. -/
def full_sig_row_chars : List JVal → List Char
  | [] => []
  | key :: rest =>
    match asObj key with
    | none => full_sig_row_chars rest
    | some o =>
      if (lookupField o "special").isSome then full_sig_row_chars rest
      else
        match get0_str_val o "default" with
        | none => full_sig_row_chars rest
        | some def0 =>
          if def0.length ≠ 1 then full_sig_row_chars rest
          else def0.toList ++ full_sig_row_chars rest

/-- The `full_sig_row`. -/
def full_sig_row (arr : List JVal) : String :=
  String.mk (full_sig_row_chars arr)

/-- The `full_signature_rows`: signatures of the first three rows. -/
def full_signature_rows (v : JVal) : Option (String × String × String) :=
  match (getField v "alphabetic").bind asArray with
  | none => none
  | some alpha =>
    if alpha.length < 3 then none
    else
      match (alpha.get? 0).bind asArray, (alpha.get? 1).bind asArray,
          (alpha.get? 2).bind asArray with
      | some r0, some r1, some r2 => some (full_sig_row r0, full_sig_row r1, full_sig_row r2)
      | _, _, _ => none

/-- The `signature_string`. -/
def signature_string (v : JVal) : String :=
  match full_signature_rows v with
  | some (a, b, c) => a ++ "|" ++ b ++ "|" ++ c
  | none => "unknown"

/-- The `contains_ordered`: the needle is an ordered subsequence of the haystack
(the `Iterator::find` consumption of the Rust loop). -/
def containsOrdered : List Char → List Char → Bool
  | _, [] => true
  | [], _ :: _ => false
  | h :: hs, c :: cs =>
    if h = c then containsOrdered hs cs else containsOrdered hs (c :: cs)

/-- The `locale_full_sig`. -/
def locale_full_sig (locale : String) : Except String (String × String × String) :=
  if locale = "de_DE" then .ok ("qwertzuiopü", "asdfghjklöä", "yxcvbnm")
  else .error ("unsupported locale " ++ locale)

/-- The `score_candidate`: the weighted heuristic for `de_DE`. -/
def score_candidate (locale : String) (r0 r1 r2 : String) (exact : Bool) : Int :=
  if locale = "de_DE" then
    (if containsOrdered r0.toList "qwertzuiop".toList then 1200 else 0) +
    (if containsOrdered r1.toList "asdfghjkl".toList then 1200 else 0) +
    (if containsOrdered r2.toList "yxcvbnm".toList then 900 else 0) +
    (if r0.toList.contains 'ü' then 8000 else 0) +
    (if r1.toList.contains 'ö' ∧ r1.toList.contains 'ä' then 8000 else 0) +
    (if exact then 20000 else 0)
  else 0

/-! ## Capacity-constrained compressor -/

/-- The ascending zstd effort levels tried by `compress_to_exact_cap`. -/
def ZSTD_LEVELS : List Int := [3, 5, 8, 10, 12, 15, 18, 22]

/-- The bytes of a zstd skippable frame of `total` bytes overall: 4-byte filler
magic `0x184D2A50` (little endian), 4-byte little-endian body length
(`(total - 8) as u32`), then that many zero bytes. -/
def skippableBytes (total : Nat) : List Nat :=
  u32le 0x184D2A50 ++ u32le ((total - 8) % 4294967296) ++
    List.replicate ((total - 8) % 4294967296) 0

/-- The `make_skippable_frame`. -/
def make_skippable_frame (total : Nat) : Except String (List Nat) :=
  if total < 8 then .error "skippable needs >= 8" else .ok (skippableBytes total)

/-- The level loop of `compress_to_exact_cap`: a level is skipped when its
output overshoots `cap` or leaves a gap of 1–7 bytes (or, after the `u32` cast,
a padded buffer that misses `cap`). -/
def c2ecGo (compress : Int → List Nat → List Nat) (raw : List Nat) (cap : Nat) :
    List Int → Except String (List Nat × Int × Nat)
  | [] => .error "unable to compress+pad to cap"
  | lvl :: rest =>
    if cap < (compress lvl raw).length then c2ecGo compress raw cap rest
    else if cap - (compress lvl raw).length = 0 then .ok (compress lvl raw, lvl, 0)
    else if 8 ≤ cap - (compress lvl raw).length then
      match make_skippable_frame (cap - (compress lvl raw).length) with
      | .error e => .error e
      | .ok frame =>
        if (compress lvl raw ++ frame).length = cap then
          .ok (compress lvl raw ++ frame, lvl, cap - (compress lvl raw).length)
        else c2ecGo compress raw cap rest
    else c2ecGo compress raw cap rest

/-- The `compress_to_exact_cap`: result is `(exact-length buffer, level used, padding)`. -/
def compress_to_exact_cap (compress : Int → List Nat → List Nat) (raw : List Nat)
    (cap : Nat) : Except String (List Nat × Int × Nat) :=
  c2ecGo compress raw cap ZSTD_LEVELS

/-! ## Blob scanner -/

/-- Positions of every occurrence of the zstd magic (`memmem` has no
self-overlapping matches for this needle, so all occurrences are reported). -/
def scanHits (bytes : List Nat) : List Nat :=
  (List.range bytes.length).filter (fun p => sliceBytes bytes p 4 == MAGIC_ZSTD)

/-- The per-header loop body of `scan_keyboard_json`: try both endianness
readings as capacities; `seen` de-duplicates `(header_offset, capacity)` pairs
and is extended before the remaining filters run, as in the source. -/
def scanCaps (c : Codec) (bytes : List Nat) (hdr : Nat) :
    List Nat → List (Nat × Nat) → List (Nat × Nat × JVal) × List (Nat × Nat)
  | [], seen => ([], seen)
  | cap :: rest, seen =>
    if cap < 80 ∨ 20000 < cap then scanCaps c bytes hdr rest seen
    else if (hdr, cap) ∈ seen then scanCaps c bytes hdr rest seen
    else if bytes.length < hdr + 4 + cap then
      scanCaps c bytes hdr rest ((hdr, cap) :: seen)
    else if ¬ startsWithBytes (sliceBytes bytes (hdr + 4) cap) MAGIC_ZSTD then
      scanCaps c bytes hdr rest ((hdr, cap) :: seen)
    else
      match decode_payload c (sliceBytes bytes (hdr + 4) cap) with
      | none => scanCaps c bytes hdr rest ((hdr, cap) :: seen)
      | some v =>
        if ((getField v "alphabetic").bind asArray).isNone then
          scanCaps c bytes hdr rest ((hdr, cap) :: seen)
        else
          ((hdr, cap, v) :: (scanCaps c bytes hdr rest ((hdr, cap) :: seen)).1,
            (scanCaps c bytes hdr rest ((hdr, cap) :: seen)).2)

/-- The two capacity readings (big- and little-endian) at a header offset. -/
def hdrCaps (bytes : List Nat) (hdr : Nat) : List Nat :=
  [(read_u32_be bytes hdr).getD 0, (read_u32_le bytes hdr).getD 0]

/-- The outer loop of `scan_keyboard_json` over magic occurrences. -/
def scanGo (c : Codec) (bytes : List Nat) :
    List Nat → List (Nat × Nat) → List (Nat × Nat × JVal)
  | [], _ => []
  | hit :: rest, seen =>
    if hit < 4 then scanGo c bytes rest seen
    else
      (scanCaps c bytes (hit - 4) (hdrCaps bytes (hit - 4)) seen).1 ++
        scanGo c bytes rest (scanCaps c bytes (hit - 4) (hdrCaps bytes (hit - 4)) seen).2

/-- The `scan_keyboard_json`: every plausible `(header_offset, capacity, document)`. -/
def scan_keyboard_json (c : Codec) (bytes : List Nat) : List (Nat × Nat × JVal) :=
  scanGo c bytes (scanHits bytes) []

/-! ## Patch transaction -/

/-- The `Plan`: the unit of transactional change. -/
structure Plan where
  hdr_off : Nat
  cap : Nat
  old_payload : List Nat
  new_payload : List Nat
  after : JVal
  sig : String

/-- The `apply_in_place`: write `new_payload` at `hdr_off + 4` — the only mutation
of the host artifact in the whole system. -/
def apply_in_place (file : List Nat) (plan : Plan) : List Nat :=
  writeAt file (plan.hdr_off + 4) plan.new_payload

/-- The `rollback_in_place`: write `old_payload` back over the same window. -/
def rollback_in_place (file : List Nat) (plan : Plan) : List Nat :=
  writeAt file (plan.hdr_off + 4) plan.old_payload

/-- The `verify_one`: re-read the window from the written file, decode it, and
require the document to equal the plan's intended result. -/
def verify_one (c : Codec) (bytes : List Nat) (plan : Plan) : Except String Unit :=
  let cap_be := (read_u32_be bytes plan.hdr_off).getD 0
  let cap_le := (read_u32_le bytes plan.hdr_off).getD 0
  let cap := if cap_be = plan.cap then cap_be else cap_le
  if cap ≠ plan.cap then .error "cap changed unexpectedly"
  else if bytes.length < plan.hdr_off + 4 + cap then .error "verify out of range"
  else
    let payload := sliceBytes bytes (plan.hdr_off + 4) cap
    if ¬ startsWithBytes payload MAGIC_ZSTD then .error "verify missing zstd magic"
    else
      match decode_payload c payload with
      | none => .error "verify decode failed"
      | some got =>
        if JVal.beq got plan.after then .ok () else .error "verify mismatch"

/-- The write-verify-rollback step shared by both patch paths of `run`
(`apply_in_place` then `verify_one`, with `rollback_in_place` on failure).  On
error the returned file is the rolled-back one. -/
def transactStep (c : Codec) (file : List Nat) (plan : Plan) :
    Except (String × List Nat) (List Nat) :=
  match verify_one c (apply_in_place file plan) plan with
  | .ok _ => .ok (apply_in_place file plan)
  | .error e =>
    .error ("verification failed; rolled back: " ++ e,
      rollback_in_place (apply_in_place file plan) plan)

/-! ## Idempotency store and the full run -/

/-- The `PatchHit` of the persisted state file. -/
structure PatchHit where
  hdr_off : Nat
  cap : Nat
  sig : String
deriving DecidableEq

/-- The `StateFile`: the persisted idempotency record. -/
structure StateFile where
  schema : String
  orig_sha : List Nat
  patched_sha : List Nat
  override_sha : List Nat
  locale : String
  hits : List PatchHit
deriving DecidableEq

/-- The world a run acts on: the target artifact's bytes and the (parsed)
state file, if any. -/
structure World where
  xochitl : List Nat
  state : Option StateFile
deriving DecidableEq

/-- The `Outcome` of a successful run. -/
inductive Outcome where
  | unchanged
  | patched
deriving DecidableEq

/-- A run's terminal result: an outcome or an error. -/
inductive RunResult where
  | ok (o : Outcome)
  | err (msg : String)
deriving DecidableEq

/-- The `sha256_with_schema`: hash of the serialized override followed by the
schema tag's bytes. -/
def sha256_with_schema (c : Codec) (over_min : List Nat) : List Nat :=
  c.hash (over_min ++ STATE_SCHEMA.toList.map Char.toNat)

/-- The override hash computed by `run`. -/
def overSha (c : Codec) (over : JVal) : List Nat :=
  sha256_with_schema c (c.serialize over)

/-- The no-op test of `run`: schema, patched hash, override hash and locale
all match the current inputs. -/
def stateMatches (st_opt : Option StateFile) (sha_cur over_shaV : List Nat)
    (locale : String) : Bool :=
  match st_opt with
  | none => false
  | some st =>
    decide (st.schema = STATE_SCHEMA ∧ st.patched_sha = sha_cur ∧
      st.override_sha = over_shaV ∧ st.locale = locale)

/-- The guard of the state-hit repatch path: same schema and locale, artifact
still as last patched, and at least one recorded hit. -/
def stateHitGuard (st_opt : Option StateFile) (sha_cur : List Nat) (locale : String) :
    Option StateFile :=
  match st_opt with
  | none => none
  | some st =>
    if st.schema = STATE_SCHEMA ∧ st.locale = locale ∧ st.patched_sha = sha_cur ∧
        st.hits ≠ [] then some st
    else none

/-- The `load_candidate_at`: re-validate a recorded hit against the mapped file and
decode its document. -/
def load_candidate_at (c : Codec) (bytes : List Nat) (hdr_off cap : Nat) :
    Except String JVal :=
  if bytes.length < hdr_off + 8 then .error "hdr_off out of range"
  else
    let cap_be := (read_u32_be bytes hdr_off).getD 0
    let cap_le := (read_u32_le bytes hdr_off).getD 0
    if cap ≠ cap_be ∧ cap ≠ cap_le then .error "cap mismatch"
    else if bytes.length < hdr_off + 4 + cap then .error "payload out of range"
    else
      let payload := sliceBytes bytes (hdr_off + 4) cap
      if ¬ startsWithBytes payload MAGIC_ZSTD then .error "payload missing zstd magic"
      else
        match decode_payload c payload with
        | none => .error "decode failed"
        | some v =>
          if ((getField v "alphabetic").bind asArray).isNone then
            .error "json at hit does not look like keyboard layout"
          else .ok v

/-- The body shared by both patch paths once a plan's ingredients are fixed:
build the plan, write, verify or roll back, and record the new state. -/
def planAndPatch (c : Codec) (locale : String) (over_shaV orig_sha : List Nat)
    (bytes : List Nat) (w : World) (hdr_off cap : Nat) (sig : String) (after : JVal)
    (new_payload : List Nat) (oobMsg : String) : RunResult × World :=
  if bytes.length < hdr_off + 4 + cap then (.err oobMsg, w)
  else
    match transactStep c bytes
        { hdr_off := hdr_off, cap := cap,
          old_payload := sliceBytes bytes (hdr_off + 4) cap,
          new_payload := new_payload, after := after, sig := sig } with
    | .error (e, file2) => (.err e, { w with xochitl := file2 })
    | .ok file2 =>
      (.ok .patched,
        { xochitl := file2,
          state := some
            { schema := STATE_SCHEMA, orig_sha := orig_sha,
              patched_sha := c.hash file2, override_sha := over_shaV, locale := locale,
              hits := [{ hdr_off := hdr_off, cap := cap, sig := sig }] } })

/-- The loop over (at most 4) recorded hits of the state-hit repatch path.
`none` means the loop fell through and `run` continues with a full scan. -/
def stateHitLoop (c : Codec) (locale : String) (mapping : LetterMap)
    (over_shaV sha_cur orig_sha : List Nat) (bytes : List Nat) (w : World) :
    List PatchHit → Option (RunResult × World)
  | [] => none
  | h :: rest =>
    match load_candidate_at c bytes h.hdr_off h.cap with
    | .error _ => stateHitLoop c locale mapping over_shaV sha_cur orig_sha bytes w rest
    | .ok before =>
      match compute_after before mapping locale true with
      | .error e => some (.err e, w)
      | .ok (after, _touched, changed) =>
        if changed = 0 then
          some (.ok .unchanged,
            { w with
              state := some
                { schema := STATE_SCHEMA, orig_sha := orig_sha,
                  patched_sha := sha_cur, override_sha := over_shaV, locale := locale,
                  hits := [{ hdr_off := h.hdr_off, cap := h.cap,
                             sig := signature_string before }] } })
        else
          match validate_layout after with
          | .error e => some (.err e, w)
          | .ok _ =>
            match compress_to_exact_cap c.compress (c.serialize after) h.cap with
            | .error e => some (.err e, w)
            | .ok (new_payload, _, _) =>
              some (planAndPatch c locale over_shaV orig_sha bytes w h.hdr_off h.cap
                (signature_string before) after new_payload
                "state-hit range out of file bounds")

/-- The `Cand`: a scored candidate of the full scan. -/
structure Cand where
  hdr_off : Nat
  cap : Nat
  sig0 : String
  sig1 : String
  sig2 : String
  score : Int
  exact : Bool
  v : JVal

/-- Build the scored candidate list from the scan output. -/
def buildCands (locale : String) (expected : String × String × String) :
    List (Nat × Nat × JVal) → List Cand
  | [] => []
  | (hdr, cap, v) :: rest =>
    match full_signature_rows v with
    | none => buildCands locale expected rest
    | some (s0, s1, s2) =>
      let exact := decide (s0 = expected.1 ∧ s1 = expected.2.1 ∧ s2 = expected.2.2)
      { hdr_off := hdr, cap := cap, sig0 := s0, sig1 := s1, sig2 := s2,
        score := score_candidate locale s0 s1 s2 exact, exact := exact, v := v } ::
        buildCands locale expected rest

/-- Stable insertion of a candidate into a descending-score list (a new
candidate goes after existing ones of equal score, as with the stable
`sort_by(|a, b| b.score.cmp(&a.score))`). -/
def insertCand (x : Cand) : List Cand → List Cand
  | [] => [x]
  | y :: ys => if y.score < x.score then x :: y :: ys else y :: insertCand x ys

/-- Stable sort by descending score. -/
def sortCands : List Cand → List Cand
  | [] => []
  | x :: xs => insertCand x (sortCands xs)

/-- The tail of the scan path once the top candidate is chosen: apply the
mapping (fallback disabled), bail on zero touch, record state on zero change,
otherwise compress and patch. -/
def scanApply (c : Codec) (locale : String) (mapping : LetterMap)
    (over_shaV sha_cur : List Nat) (w : World) (chosen : Cand) : RunResult × World :=
  match compute_after chosen.v mapping locale false with
  | .error e => (.err e, w)
  | .ok (after, touched, changed) =>
    if touched = 0 then (.err "mapping touched 0 keys (base layout unexpected?)", w)
    else if changed = 0 then
      (.ok .unchanged,
        { w with
          state := some
            { schema := STATE_SCHEMA, orig_sha := sha_cur,
              patched_sha := sha_cur, override_sha := over_shaV, locale := locale,
              hits := [{ hdr_off := chosen.hdr_off, cap := chosen.cap,
                         sig := chosen.sig0 ++ "|" ++ chosen.sig1 ++ "|" ++
                           chosen.sig2 }] } })
    else
      match validate_layout after with
      | .error e => (.err e, w)
      | .ok _ =>
        match compress_to_exact_cap c.compress (c.serialize after) chosen.cap with
        | .error e => (.err e, w)
        | .ok (new_payload, _, _) =>
          planAndPatch c locale over_shaV sha_cur w.xochitl w chosen.hdr_off chosen.cap
            (chosen.sig0 ++ "|" ++ chosen.sig1 ++ "|" ++ chosen.sig2) after new_payload
            "candidate range out of file bounds"

/-- The full-scan fallback path of `run`. -/
def scanPhase (c : Codec) (locale : String) (mapping : LetterMap)
    (over_shaV sha_cur : List Nat) (w : World) : RunResult × World :=
  match locale_full_sig locale with
  | .error e => (.err e, w)
  | .ok expected =>
    if (scan_keyboard_json c w.xochitl).isEmpty then
      (.err "no keyboard JSON candidates found", w)
    else if (buildCands locale expected (scan_keyboard_json c w.xochitl)).isEmpty then
      (.err "found zstd JSON blobs, but none looked like keyboard layouts", w)
    else
      match sortCands (buildCands locale expected (scan_keyboard_json c w.xochitl)) with
      | [] => (.err "found zstd JSON blobs, but none looked like keyboard layouts", w)
      | chosen :: _ => scanApply c locale mapping over_shaV sha_cur w chosen

/-- The `run`: the whole control flow of one invocation.  File-existence checks,
backups and debug dumps are I/O plumbing without effect on the modelled world
and are elided. -/
def runModel (c : Codec) (locale : String) (over : JVal) (force check : Bool)
    (w : World) : RunResult × World :=
  match validate_override over with
  | .error e => (.err e, w)
  | .ok _ =>
    match build_letter_mapping locale over with
    | .error e => (.err e, w)
    | .ok mapping =>
      if check then
        if stateMatches w.state (c.hash w.xochitl) (overSha c over) locale then
          (.ok .unchanged, w)
        else (.ok .patched, w)
      else if force = false ∧
          stateMatches w.state (c.hash w.xochitl) (overSha c over) locale = true then
        (.ok .unchanged, w)
      else
        match stateHitGuard w.state (c.hash w.xochitl) locale with
        | some st =>
          match stateHitLoop c locale mapping (overSha c over) (c.hash w.xochitl)
              st.orig_sha w.xochitl w (st.hits.take 4) with
          | some res => res
          | none => scanPhase c locale mapping (overSha c over) (c.hash w.xochitl) w
        | none => scanPhase c locale mapping (overSha c over) (c.hash w.xochitl) w

/-! ## Specification predicates used by the theorems -/

/-- The invariants of one scanner output entry `(header_offset, capacity, doc)`. -/
def scanEntryOK (bytes : List Nat) (e : Nat × Nat × JVal) : Prop :=
  e.1 + 4 + e.2.1 ≤ bytes.length ∧ 80 ≤ e.2.1 ∧ e.2.1 ≤ 20000 ∧
  (read_u32_be bytes e.1 = some e.2.1 ∨ read_u32_le bytes e.1 = some e.2.1) ∧
  startsWithBytes (sliceBytes bytes (e.1 + 4) e.2.1) MAGIC_ZSTD = true

/-- After a successful patch, the recorded state names the current artifact
hash, the current override hash and the locale, under the current schema. -/
def goodState (c : Codec) (over : JVal) (locale : String) (w : World) : Prop :=
  ∃ st, w.state = some st ∧ st.schema = STATE_SCHEMA ∧
    st.patched_sha = c.hash w.xochitl ∧ st.override_sha = overSha c over ∧
    st.locale = locale

/-- A level the compressor loop skips: overshoots the capacity, leaves a 1–7
byte gap, or (after the `u32` cast) pads to a length other than the capacity. -/
def levelRejected (compress : Int → List Nat → List Nat) (raw : List Nat) (cap : Nat)
    (l : Int) : Prop :=
  cap < (compress l raw).length ∨
  (cap - (compress l raw).length ≠ 0 ∧ cap - (compress l raw).length < 8) ∨
  (8 ≤ cap - (compress l raw).length ∧
    (compress l raw).length + (skippableBytes (cap - (compress l raw).length)).length ≠ cap)

/-- A level whose output fits: exactly the capacity, or smaller by at least 8. -/
def levelFits (compress : Int → List Nat → List Nat) (raw : List Nat) (cap : Nat)
    (l : Int) : Prop :=
  (compress l raw).length ≤ cap ∧
    (cap - (compress l raw).length = 0 ∨ 8 ≤ cap - (compress l raw).length)

/-! ## Concrete test fixtures (witness data)

A toy stream codec standing in for zstd in the closed witnesses: length-prefixed
frames behind the real magic, with any trailing bytes (the skippable filler)
ignored by decompression, and per-document serialization tables. -/

/-- Toy compressor: magic, little-endian length, then the raw bytes. -/
def toyCompress (_lvl : Int) (raw : List Nat) : List Nat :=
  MAGIC_ZSTD ++ u32le raw.length ++ raw

/-- Toy decompressor: reads one length-prefixed frame and ignores trailing
filler bytes. -/
def toyDecompress (b : List Nat) : Option (List Nat) :=
  match b with
  | m0 :: m1 :: m2 :: m3 :: l0 :: l1 :: l2 :: l3 :: rest =>
    if [m0, m1, m2, m3] = MAGIC_ZSTD then
      let n := l0 + 256 * l1 + 65536 * l2 + 16777216 * l3
      if n ≤ rest.length then some (rest.take n) else none
    else none
  | _ => none

/-- A normal key with one-element `default` and `shifted` arrays. -/
def mkKey (d s : String) : JVal :=
  .obj [("default", .arr [.str d]), ("shifted", .arr [.str s])]

/-- A full 11/11/8-key override document for `de_DE` (swaps `q` to `z`). -/
def overA : JVal :=
  .obj [("alphabetic", .arr
    [.arr [mkKey "z" "Z", mkKey "w" "W", mkKey "e" "E", mkKey "r" "R", mkKey "t" "T",
           mkKey "q" "Q", mkKey "u" "U", mkKey "i" "I", mkKey "o" "O", mkKey "p" "P",
           mkKey "ü" "Ü"],
     .arr [mkKey "a" "A", mkKey "s" "S", mkKey "d" "D", mkKey "f" "F", mkKey "g" "G",
           mkKey "h" "H", mkKey "j" "J", mkKey "k" "K", mkKey "l" "L", mkKey "ö" "Ö",
           mkKey "ä" "Ä"],
     .arr [mkKey "#" "#", mkKey "y" "Y", mkKey "x" "X", mkKey "c" "C", mkKey "v" "V",
           mkKey "b" "B", mkKey "n" "N", mkKey "m" "M"]])]

/-- The letter mapping built from `overA`. -/
def mappingA : LetterMap :=
  match build_letter_mapping "de_DE" overA with
  | .ok m => m
  | .error _ => []

/-- A small base layout document: one key per row (`q`, `a`, `y`). -/
def beforeA : JVal :=
  .obj [("alphabetic", .arr
    [.arr [mkKey "q" "Q"], .arr [mkKey "a" "A"], .arr [mkKey "y" "Y"]])]

/-- The `beforeA` after applying `mappingA` by base letter. -/
def afterA : JVal :=
  match compute_after beforeA mappingA "de_DE" false with
  | .ok r => r.1
  | .error _ => .null

/-- Witness codec for the idempotency run: toy zstd, a serialization table for
the two documents in play, and the identity hash. -/
def codecA : Codec :=
  { compress := toyCompress, decompress := toyDecompress,
    parse := fun b => if b = [0] then some beforeA else if b = [1] then some afterA else none,
    serialize := fun v => if JVal.beq v beforeA then [0]
      else if JVal.beq v afterA then [1] else [2],
    hash := fun b => b }

/-- Artifact holding one 80-byte blob of `beforeA` behind a little-endian
capacity header. -/
def bytesA : List Nat :=
  u32le 80 ++ toyCompress 3 [0] ++ List.replicate 71 0

/-- Initial world of the idempotency witness: fresh artifact, no state file. -/
def w0A : World := { xochitl := bytesA, state := none }

/-- World after the first (patching) run of the idempotency witness. -/
def w1A : World := (runModel codecA "de_DE" overA false false w0A).2

/-- A 10/9/8-key base layout made of punctuation and digit glyphs, which the
letter mapping never touches. -/
def beforeC5 : JVal :=
  .obj [("alphabetic", .arr
    [.arr [mkKey "0" "0", mkKey "1" "1", mkKey "2" "2", mkKey "3" "3", mkKey "4" "4",
           mkKey "5" "5", mkKey "6" "6", mkKey "7" "7", mkKey "8" "8", mkKey "9" "9"],
     .arr [mkKey "!" "!", mkKey "@" "@", mkKey "#" "#", mkKey "$" "$", mkKey "%" "%",
           mkKey "&" "&", mkKey "*" "*", mkKey "(" "(", mkKey ")" ")"],
     .arr [mkKey "-" "-", mkKey "=" "=", mkKey "+" "+", mkKey ";" ";", mkKey ":" ":",
           mkKey "," ",", mkKey "." ".", mkKey "/" "/"]])]

/-- The `beforeC5` after the (ineffective) primary policy. -/
def aC5 : JVal :=
  match apply_mapping_by_base_letter beforeC5 mappingA with
  | .ok r => r.1
  | .error _ => .null

/-- Witness codec for the zero-touch scan run. -/
def codecC5 : Codec :=
  { compress := toyCompress, decompress := toyDecompress,
    parse := fun b => if b = [0] then some beforeC5 else none,
    serialize := fun v => if JVal.beq v beforeC5 then [0] else [2],
    hash := fun b => b }

/-- Artifact holding one 80-byte blob of `beforeC5`. -/
def bytesC5 : List Nat :=
  u32le 80 ++ toyCompress 3 [0] ++ List.replicate 71 0

/-- World of the zero-touch scan run. -/
def wC5 : World := { xochitl := bytesC5, state := none }

/-- Touched count the fixed-position fallback would report on `beforeC5`. -/
def fallbackTouchedC5 : Nat :=
  match apply_mapping_by_position "de_DE" beforeC5 mappingA with
  | .ok r => r.2.1
  | .error _ => 0

/-- Result document of the fixed-position fallback on `beforeC5`. -/
def rC10 : JVal :=
  match apply_mapping_by_position_de_de beforeC5 mappingA with
  | .ok r => r.1
  | .error _ => .null

/-- Document used by the round-trip witness. -/
def docB : JVal := beforeA

/-- Witness codec for the round-trip theorem. -/
def codecB : Codec :=
  { compress := toyCompress, decompress := toyDecompress,
    parse := fun b => if b = [0] then some docB else none,
    serialize := fun v => if JVal.beq v docB then [0] else [2],
    hash := fun b => b }

/-- The buffer `compress_to_exact_cap` produces in the round-trip witness. -/
def bufB : List Nat :=
  match compress_to_exact_cap codecB.compress (codecB.serialize docB) 80 with
  | .ok r => r.1
  | .error _ => []

/-- Minimal layout document of the scanner witness. -/
def docC9 : JVal := .obj [("alphabetic", .arr [])]

/-- Witness codec for the scanner invariants. -/
def codecC9 : Codec :=
  { compress := toyCompress, decompress := toyDecompress,
    parse := fun b => if b = [0] then some docC9 else none,
    serialize := fun v => if JVal.beq v docC9 then [0] else [2],
    hash := fun b => b }

/-- Buffer containing one valid 80-byte blob for the scanner witness. -/
def bytesC9 : List Nat :=
  u32le 80 ++ toyCompress 3 [0] ++ List.replicate 71 0

/-- A compressor whose level 3 leaves a 3-byte gap at capacity 100 and whose
other levels leave a 10-byte gap. -/
def cexCompress (lvl : Int) (_raw : List Nat) : List Nat :=
  if lvl = 3 then List.replicate 97 0 else List.replicate 90 0

/-- Level chosen by `compress_to_exact_cap` under `cexCompress` at capacity 100. -/
def c6lvl : Int :=
  match compress_to_exact_cap cexCompress [] 100 with
  | .ok r => r.2.1
  | .error _ => 0

/-- Buffer chosen by `compress_to_exact_cap` under `cexCompress` at capacity 100. -/
def bufC6 : List Nat :=
  match compress_to_exact_cap cexCompress [] 100 with
  | .ok r => r.1
  | .error _ => []

/-- Codec whose decompression always fails (for the rollback witness). -/
def nullCodec : Codec :=
  { compress := toyCompress, decompress := fun _ => none,
    parse := fun _ => none, serialize := fun _ => [], hash := fun b => b }

/-- Pre-write file of the rollback witness. -/
def fileC1 : List Nat := [0, 0, 0, 4] ++ [1, 2, 3, 4] ++ [5, 5]

/-- Plan of the rollback witness: its verification fails (no zstd magic). -/
def planC1 : Plan :=
  { hdr_off := 0, cap := 4, old_payload := sliceBytes fileC1 4 4,
    new_payload := [9, 9, 9, 9], after := .null, sig := "" }

/-! # Theorems -/

/-- Writing `new` into a window and then writing back the window's original
content restores the whole file. -/
theorem writeAt_restore (file old new : List Nat) (off : Nat)
    (hold : old = sliceBytes file off new.length)
    (hlen : off + new.length ≤ file.length) :
    writeAt (writeAt file off new) off old = file := by
  have hoff : off ≤ file.length := le_trans (Nat.le_add_right _ _) hlen
  have htake : (file.take off).length = off := by
    simp [List.length_take, Nat.min_eq_left hoff]
  have holdlen : old.length = new.length := by
    subst hold
    simp only [sliceBytes, List.length_take, List.length_drop]
    omega
  unfold writeAt
  rw [holdlen]
  have h1 : ((file.take off ++ (new ++ file.drop (off + new.length)))).take off
      = file.take off := by
    apply List.take_left'
    exact htake
  have h2 : ((file.take off ++ new) ++ file.drop (off + new.length)).drop
      (off + new.length) = file.drop (off + new.length) := by
    apply List.drop_left'
    simp [htake]
  rw [List.append_assoc] at h2
  rw [List.append_assoc (file.take off) new, h1, h2, hold]
  have h3 : sliceBytes file off new.length ++ file.drop (off + new.length)
      = file.drop off := by
    have hdd : file.drop (off + new.length) = (file.drop off).drop new.length := by
      rw [List.drop_drop, Nat.add_comm]
    rw [sliceBytes, hdd, List.take_append_drop]
  rw [List.append_assoc, h3, List.take_append_drop]

/-- Claim C1: when post-write verification of a plan fails, the transaction
writes `old_payload` back over the same window, restoring the file to its
byte-identical pre-write content, and the run surfaces an error (never
success), provided the plan was built as in `run`: `old_payload` is the
current window content and `new_payload` fills the window exactly. -/
theorem rollback_on_verify_failure (c : Codec) (file : List Nat) (plan : Plan)
    (e : String)
    (hlen : plan.hdr_off + 4 + plan.cap ≤ file.length)
    (hold : plan.old_payload = sliceBytes file (plan.hdr_off + 4) plan.cap)
    (hnew : plan.new_payload.length = plan.cap)
    (hfail : verify_one c (apply_in_place file plan) plan = .error e) :
    transactStep c file plan = .error ("verification failed; rolled back: " ++ e, file) := by
  unfold transactStep
  rw [hfail]
  have hrb : rollback_in_place (apply_in_place file plan) plan = file := by
    unfold rollback_in_place apply_in_place
    apply writeAt_restore
    · rw [hnew]
      exact hold
    · rw [hnew]
      omega
  rw [hrb]

/-- Witness for claim C1 at a concrete file and plan whose verification fails. -/
theorem rollback_on_verify_failure_witness :
    transactStep nullCodec fileC1 planC1 =
      .error ("verification failed; rolled back: " ++ "verify missing zstd magic", fileC1) :=
  rollback_on_verify_failure nullCodec fileC1 planC1 "verify missing zstd magic"
    (by decide) (by decide) (by decide) (by decide)

/-- Claim C7 counterexample: the weight of locale-glyph presence (the score
delta of adding `ü` to row 0) is NOT strictly greater than the exact-match
bonus (the score delta of an exact full-signature match) — it is smaller
(8000 versus 20000). -/
theorem score_glyph_weight_not_above_exact :
    ¬ (score_candidate "de_DE" "ü" "" "" false - score_candidate "de_DE" "" "" "" false >
       score_candidate "de_DE" "" "" "" true - score_candidate "de_DE" "" "" "" false) := by
  decide

/-- Claim C7 (amended): the exact-match bonus is strictly greater than each
locale-glyph presence weight, which is strictly greater than each of the
ordered-subsequence row weights. -/
theorem score_weight_ordering :
    (score_candidate "de_DE" "" "" "" true - score_candidate "de_DE" "" "" "" false >
       score_candidate "de_DE" "ü" "" "" false - score_candidate "de_DE" "" "" "" false) ∧
    (score_candidate "de_DE" "" "" "" true - score_candidate "de_DE" "" "" "" false >
       score_candidate "de_DE" "" "öä" "" false - score_candidate "de_DE" "" "" "" false) ∧
    (score_candidate "de_DE" "ü" "" "" false - score_candidate "de_DE" "" "" "" false >
       score_candidate "de_DE" "qwertzuiop" "" "" false - score_candidate "de_DE" "" "" "" false) ∧
    (score_candidate "de_DE" "ü" "" "" false - score_candidate "de_DE" "" "" "" false >
       score_candidate "de_DE" "" "asdfghjkl" "" false - score_candidate "de_DE" "" "" "" false) ∧
    (score_candidate "de_DE" "ü" "" "" false - score_candidate "de_DE" "" "" "" false >
       score_candidate "de_DE" "" "" "yxcvbnm" false - score_candidate "de_DE" "" "" "" false) ∧
    (score_candidate "de_DE" "" "öä" "" false - score_candidate "de_DE" "" "" "" false >
       score_candidate "de_DE" "qwertzuiop" "" "" false - score_candidate "de_DE" "" "" "" false) ∧
    (score_candidate "de_DE" "" "öä" "" false - score_candidate "de_DE" "" "" "" false >
       score_candidate "de_DE" "" "asdfghjkl" "" false - score_candidate "de_DE" "" "" "" false) ∧
    (score_candidate "de_DE" "" "öä" "" false - score_candidate "de_DE" "" "" "" false >
       score_candidate "de_DE" "" "" "yxcvbnm" false - score_candidate "de_DE" "" "" "" false) := by
  decide

/-- Claim C8 counterexample: a key whose `shifted` field is present but an
empty array still falls back to the `default` glyph (the construction succeeds
with `shifted = default`), contradicting "no fallback if `shifted` is present
in any form". -/
theorem shifted_empty_array_still_falls_back :
    key_pair_from_val (.obj [("default", .arr [.str "a"]), ("shifted", .arr [])]) =
      .ok ("a", "a") := by
  rfl

/-- Claim C8 (amended): for a normal key with a readable `default[0] = d`, the
shifted glyph falls back to `d` exactly when `get0_str_val` yields nothing for
`shifted` (absent, not an array, empty array, or non-string first element);
when a first string element `s` is present there is no fallback, and the
construction succeeds iff both `d` and `s` are single characters. -/
theorem key_pair_from_val_shifted_policy (o : List (String × JVal)) (d : String)
    (hsp : lookupField o "special" = none)
    (hd : get0_str_val o "default" = some d) :
    (get0_str_val o "shifted" = none →
      key_pair_from_val (.obj o) =
        if d.length = 1 then .ok (d, d) else .error "expected 1 char") ∧
    (∀ s, get0_str_val o "shifted" = some s →
      key_pair_from_val (.obj o) =
        if d.length = 1 then
          (if s.length = 1 then .ok (d, s) else .error "expected 1 char")
        else .error "expected 1 char") := by
  constructor
  · intro hnone
    simp only [key_pair_from_val, asObj, hsp, Option.isSome_none, Bool.false_eq_true,
      if_false, hd, hnone, Option.getD_none, ensure_one_char]
    by_cases hdl : d.length = 1 <;> simp [hdl]
  · intro s hs
    simp only [key_pair_from_val, asObj, hsp, Option.isSome_none, Bool.false_eq_true,
      if_false, hd, hs, Option.getD_some, ensure_one_char]
    by_cases hdl : d.length = 1 <;> by_cases hsl : s.length = 1 <;> simp [hdl, hsl]

/-- Witness for the amended claim C8 at a concrete key without a `shifted`
field: the fallback applies and construction succeeds. -/
theorem key_pair_from_val_shifted_policy_witness :
    key_pair_from_val (.obj [("default", JVal.arr [JVal.str "a"])]) = .ok ("a", "a") := by
  have h := (key_pair_from_val_shifted_policy [("default", JVal.arr [JVal.str "a"])] "a"
    (by rfl) (by rfl)).1 (by rfl)
  simpa using h

/-- Length of the skippable frame: exactly `pad` bytes when `pad` fits in `u32`. -/
theorem skippableBytes_length (pad : Nat) (h8 : 8 ≤ pad) (hlt : pad < 4294967296) :
    (skippableBytes pad).length = pad := by
  have hm : (pad - 8) % 4294967296 = pad - 8 := Nat.mod_eq_of_lt (by omega)
  simp only [skippableBytes, u32le, List.length_append, List.length_cons,
    List.length_nil, List.length_replicate, hm]
  omega

/-- Under the `u32` bound, the skippable frame is literally magic, little-endian
body length, and that many zero bytes. -/
theorem skippableBytes_eq (pad : Nat) (hlt : pad < 4294967296) :
    skippableBytes pad =
      u32le 0x184D2A50 ++ u32le (pad - 8) ++ List.replicate (pad - 8) 0 := by
  have hm : (pad - 8) % 4294967296 = pad - 8 := Nat.mod_eq_of_lt (by omega)
  simp only [skippableBytes, hm]

/-- Success anatomy of the compressor's level loop: the levels before the
chosen one were all rejected, the padding is the gap at the chosen level, and
the buffer is the compressed output, possibly followed by the skippable frame. -/
theorem c2ecGo_ok (compress : Int → List Nat → List Nat) (raw : List Nat) (cap : Nat) :
    ∀ (ls : List Int) (buf : List Nat) (lvl : Int) (pad : Nat),
      c2ecGo compress raw cap ls = .ok (buf, lvl, pad) →
      ∃ pre post, ls = pre ++ lvl :: post ∧
        (∀ l ∈ pre, levelRejected compress raw cap l) ∧
        pad = cap - (compress lvl raw).length ∧
        (compress lvl raw).length ≤ cap ∧
        buf.length = cap ∧
        ((pad = 0 ∧ buf = compress lvl raw) ∨
         (8 ≤ pad ∧ buf = compress lvl raw ++ skippableBytes pad)) := by
  intro ls
  induction ls with
  | nil =>
    intro buf lvl pad h
    simp [c2ecGo] at h
  | cons l0 rest ih =>
    intro buf lvl pad h
    rw [c2ecGo] at h
    by_cases h1 : cap < (compress l0 raw).length
    · rw [if_pos h1] at h
      obtain ⟨pre, post, heq, hrej, hrest⟩ := ih buf lvl pad h
      refine ⟨l0 :: pre, post, (by rw [heq]; rfl), ?_, hrest⟩
      intro l hl
      rcases List.mem_cons.mp hl with hl0 | hlp
      · subst hl0; exact Or.inl h1
      · exact hrej l hlp
    · rw [if_neg h1] at h
      by_cases h2 : cap - (compress l0 raw).length = 0
      · rw [if_pos h2] at h
        have hb : compress l0 raw = buf ∧ l0 = lvl ∧ 0 = pad := by
          simpa using h
        obtain ⟨hb1, hb2, hb3⟩ := hb
        subst hb1; subst hb2; subst hb3
        refine ⟨[], rest, rfl, (by intro l hl; cases hl), (by omega), (by omega),
          (by omega), Or.inl ⟨rfl, rfl⟩⟩
      · rw [if_neg h2] at h
        by_cases h3 : 8 ≤ cap - (compress l0 raw).length
        · rw [if_pos h3] at h
          have hmk : make_skippable_frame (cap - (compress l0 raw).length) =
              .ok (skippableBytes (cap - (compress l0 raw).length)) := by
            rw [make_skippable_frame, if_neg (by omega)]
          split at h
          · rename_i e heq
            rw [hmk] at heq
            cases heq
          · rename_i frame heq
            rw [hmk] at heq
            injection heq with h5
            subst h5
            by_cases h4 : (compress l0 raw ++
                skippableBytes (cap - (compress l0 raw).length)).length = cap
            · rw [if_pos h4] at h
              have hb : compress l0 raw ++
                  skippableBytes (cap - (compress l0 raw).length) = buf ∧
                  l0 = lvl ∧ cap - (compress l0 raw).length = pad := by
                simpa using h
              obtain ⟨hb1, hb2, hb3⟩ := hb
              subst hb2
              subst hb3
              refine ⟨[], rest, rfl, (by intro l hl; cases hl), rfl, (by omega),
                ?_, ?_⟩
              · rw [← hb1]; exact h4
              · exact Or.inr ⟨h3, hb1.symm⟩
            · rw [if_neg h4] at h
              obtain ⟨pre, post, heq2, hrej, hrest⟩ := ih buf lvl pad h
              refine ⟨l0 :: pre, post, (by rw [heq2]; rfl), ?_, hrest⟩
              intro l hl
              rcases List.mem_cons.mp hl with hl0 | hlp
              · subst hl0
                refine Or.inr (Or.inr ⟨h3, ?_⟩)
                intro hc
                apply h4
                rw [List.length_append]
                exact hc
              · exact hrej l hlp
        · rw [if_neg h3] at h
          obtain ⟨pre, post, heq, hrej, hrest⟩ := ih buf lvl pad h
          refine ⟨l0 :: pre, post, (by rw [heq]; rfl), ?_, hrest⟩
          intro l hl
          rcases List.mem_cons.mp hl with hl0 | hlp
          · subst hl0; exact Or.inr (Or.inl ⟨h2, (by omega)⟩)
          · exact hrej l hlp

/-- Failure anatomy of the level loop under the `u32` capacity bound: the loop
errors out exactly when every level overshoots or leaves a 1–7 byte gap. -/
theorem c2ecGo_error (compress : Int → List Nat → List Nat) (raw : List Nat) (cap : Nat)
    (hcap : cap < 4294967296) :
    ∀ ls : List Int,
      (c2ecGo compress raw cap ls = .error "unable to compress+pad to cap" ↔
        ∀ l ∈ ls, cap < (compress l raw).length ∨
          (1 ≤ cap - (compress l raw).length ∧ cap - (compress l raw).length ≤ 7)) := by
  intro ls
  induction ls with
  | nil => simp [c2ecGo]
  | cons l0 rest ih =>
    rw [c2ecGo]
    by_cases h1 : cap < (compress l0 raw).length
    · rw [if_pos h1]
      simp only [List.mem_cons, forall_eq_or_imp]
      constructor
      · intro h; exact ⟨Or.inl h1, (ih.mp h)⟩
      · intro h; exact ih.mpr h.2
    · rw [if_neg h1]
      by_cases h2 : cap - (compress l0 raw).length = 0
      · rw [if_pos h2]
        constructor
        · intro h; cases h
        · intro h
          rcases h l0 (List.mem_cons_self l0 rest) with hc | ⟨hc1, _⟩
          · exact absurd hc h1
          · omega
      · rw [if_neg h2]
        by_cases h3 : 8 ≤ cap - (compress l0 raw).length
        · rw [if_pos h3]
          have hmk : make_skippable_frame (cap - (compress l0 raw).length) =
              .ok (skippableBytes (cap - (compress l0 raw).length)) := by
            rw [make_skippable_frame, if_neg (by omega)]
          have hfl : (compress l0 raw ++
              skippableBytes (cap - (compress l0 raw).length)).length = cap := by
            rw [List.length_append, skippableBytes_length _ h3 (by omega)]
            omega
          constructor
          · intro h
            exfalso
            split at h
            · rename_i e heq
              rw [hmk] at heq
              cases heq
            · rename_i frame heq
              rw [hmk] at heq
              injection heq with h5
              subst h5
              rw [if_pos hfl] at h
              cases h
          · intro h
            exfalso
            rcases h l0 (List.mem_cons_self l0 rest) with hc | ⟨_, hc2⟩
            · exact absurd hc h1
            · omega
        · rw [if_neg h3]
          simp only [List.mem_cons, forall_eq_or_imp]
          constructor
          · intro h; exact ⟨Or.inr ⟨by omega, by omega⟩, ih.mp h⟩
          · intro h; exact ih.mpr h.2

/-- Claim C2: when `compress_to_exact_cap` succeeds (for a `u32` capacity, as
at every call site) the buffer fills the capacity exactly, the padding is 0 or
at least 8, and any padding is the self-describing filler frame (4-byte filler
magic, 4-byte little-endian body length, that many zero bytes); it fails
exactly when every effort level either overshoots the capacity or leaves a gap
of 1 to 7 bytes. -/
theorem compress_to_exact_cap_spec (compress : Int → List Nat → List Nat)
    (raw : List Nat) (cap : Nat) (hcap : cap < 4294967296) :
    (∀ buf lvl pad, compress_to_exact_cap compress raw cap = .ok (buf, lvl, pad) →
      buf.length = cap ∧ (pad = 0 ∨ 8 ≤ pad) ∧
      pad = cap - (compress lvl raw).length ∧
      (pad = 0 → buf = compress lvl raw) ∧
      (8 ≤ pad → buf = compress lvl raw ++
        (u32le 0x184D2A50 ++ u32le (pad - 8) ++ List.replicate (pad - 8) 0))) ∧
    (compress_to_exact_cap compress raw cap = .error "unable to compress+pad to cap" ↔
      ∀ l ∈ ZSTD_LEVELS, cap < (compress l raw).length ∨
        (1 ≤ cap - (compress l raw).length ∧ cap - (compress l raw).length ≤ 7)) := by
  constructor
  · intro buf lvl pad h
    obtain ⟨pre, post, heq, hrej, hpad, hle, hlen, hdisj⟩ :=
      c2ecGo_ok compress raw cap ZSTD_LEVELS buf lvl pad h
    refine ⟨hlen, ?_, hpad, ?_, ?_⟩
    · rcases hdisj with ⟨h0, _⟩ | ⟨h8, _⟩
      · exact Or.inl h0
      · exact Or.inr h8
    · intro h0
      rcases hdisj with ⟨_, hb⟩ | ⟨h8, _⟩
      · exact hb
      · omega
    · intro h8
      rcases hdisj with ⟨h0, _⟩ | ⟨_, hb⟩
      · omega
      · rw [hb, skippableBytes_eq pad (by omega)]
  · exact c2ecGo_error compress raw cap hcap ZSTD_LEVELS

/-- Witness for claim C2 at a concrete compressor, input and capacity. -/
theorem compress_to_exact_cap_spec_witness :
    bufB.length = 80 ∧ ((71 : Nat) = 0 ∨ 8 ≤ (71 : Nat)) := by
  have h := (compress_to_exact_cap_spec codecB.compress (codecB.serialize docB) 80
    (by decide)).1 bufB 3 71 (by decide)
  exact ⟨h.1, h.2.1⟩

/-- Claim C3: whenever `compress_to_exact_cap` succeeds on the canonical
serialization of a document, decompressing and parsing the produced buffer
yields the original document, and the buffer's length equals the capacity —
assuming the external codec round-trips (zstd inverts compression and skips
the filler frame; JSON parsing inverts serialization). -/
theorem compress_roundtrip (c : Codec) (doc : JVal) (cap : Nat) (buf : List Nat)
    (lvl : Int) (pad : Nat)
    (hplain : ∀ l ∈ ZSTD_LEVELS,
      c.decompress (c.compress l (c.serialize doc)) = some (c.serialize doc))
    (hpadded : ∀ l ∈ ZSTD_LEVELS,
      8 ≤ cap - (c.compress l (c.serialize doc)).length →
      c.decompress (c.compress l (c.serialize doc) ++
        skippableBytes (cap - (c.compress l (c.serialize doc)).length)) =
        some (c.serialize doc))
    (hparse : c.parse (c.serialize doc) = some doc)
    (hok : compress_to_exact_cap c.compress (c.serialize doc) cap = .ok (buf, lvl, pad)) :
    decode_payload c buf = some doc ∧ buf.length = cap := by
  obtain ⟨pre, post, heq, hrej, hpad, hle, hlen, hdisj⟩ :=
    c2ecGo_ok c.compress (c.serialize doc) cap ZSTD_LEVELS buf lvl pad hok
  have hmem : lvl ∈ ZSTD_LEVELS := by
    rw [heq]
    exact List.mem_append_right pre (List.mem_cons_self lvl post)
  refine ⟨?_, hlen⟩
  rcases hdisj with ⟨h0, hb⟩ | ⟨h8, hb⟩
  · rw [hb]
    unfold decode_payload
    rw [hplain lvl hmem]
    exact hparse
  · rw [hb]
    unfold decode_payload
    rw [hpad] at h8 ⊢
    rw [hpadded lvl hmem h8]
    exact hparse

/-- Witness for claim C3 at a concrete codec, document and capacity. -/
theorem compress_roundtrip_witness :
    decode_payload codecB bufB = some docB ∧ bufB.length = 80 :=
  compress_roundtrip codecB docB 80 bufB 3 71 (by decide) (by decide) (by rfl) (by decide)

/-- Claim C6 counterexample: level 3 — the first level of the ascending
sequence — produces output of size at most the capacity, yet the compressor
does not stop there: it returns level 5's output (level 3's 3-byte gap cannot
hold the filler frame). -/
theorem first_fit_by_size_cex :
    c6lvl = 5 ∧ (cexCompress 3 []).length ≤ 100 ∧ ZSTD_LEVELS.head? = some 3 ∧
      c6lvl ≠ 3 := by
  decide

/-- Claim C6 (amended): for a `u32` capacity, the compressor stops at the first
effort level whose output fits — equal to the capacity or smaller by at least
8 bytes — and uses that level's output (padded if smaller); levels whose
output merely satisfies size ≤ capacity but leaves a 1–7 byte gap are skipped. -/
theorem compress_levels_first_fit (compress : Int → List Nat → List Nat)
    (raw : List Nat) (cap : Nat) (buf : List Nat) (lvl : Int) (pad : Nat)
    (hcap : cap < 4294967296)
    (hok : compress_to_exact_cap compress raw cap = .ok (buf, lvl, pad)) :
    ∃ pre post, ZSTD_LEVELS = pre ++ lvl :: post ∧
      (∀ l ∈ pre, ¬ levelFits compress raw cap l) ∧
      levelFits compress raw cap lvl ∧
      (buf = compress lvl raw ∨ buf = compress lvl raw ++ skippableBytes pad) := by
  obtain ⟨pre, post, heq, hrej, hpad, hle, hlen, hdisj⟩ :=
    c2ecGo_ok compress raw cap ZSTD_LEVELS buf lvl pad hok
  refine ⟨pre, post, heq, ?_, ?_, ?_⟩
  · intro l hl
    rcases hrej l hl with hc | ⟨hc1, hc2⟩ | ⟨hc1, hc2⟩
    · intro hf
      obtain ⟨hf1, hf2⟩ := hf
      omega
    · intro hf
      obtain ⟨hf1, hf2⟩ := hf
      rcases hf2 with h0 | h8 <;> omega
    · intro hf
      apply hc2
      rw [skippableBytes_length _ hc1 (by omega)]
      obtain ⟨hf1, hf2⟩ := hf
      omega
  · constructor
    · exact hle
    · rcases hdisj with ⟨h0, _⟩ | ⟨h8, _⟩
      · exact Or.inl (by omega)
      · exact Or.inr (by omega)
  · rcases hdisj with ⟨_, hb⟩ | ⟨_, hb⟩
    · exact Or.inl hb
    · exact Or.inr hb

/-- Witness for the amended claim C6 at the concrete two-gap compressor. -/
theorem compress_levels_first_fit_witness :
    ∃ pre post, ZSTD_LEVELS = pre ++ (5 : Int) :: post ∧
      (∀ l ∈ pre, ¬ levelFits cexCompress [] 100 l) ∧
      levelFits cexCompress [] 100 5 ∧
      (bufC6 = cexCompress 5 [] ∨ bufC6 = cexCompress 5 [] ++ skippableBytes 10) :=
  compress_levels_first_fit cexCompress [] 100 bufC6 5 10 (by decide) (by decide)

/-- Every successful step of the position loop counts as touched, so the
touched count equals the number of positions processed. -/
theorem applyPositions_touched (m : LetterMap) :
    ∀ (specs : List (Nat × Char)) (row row2 : List JVal) (t c : Nat),
      applyPositions m row specs = .ok (row2, t, c) → t = specs.length := by
  intro specs
  induction specs with
  | nil =>
    intro row row2 t c h
    rw [applyPositions] at h
    cases h
    rfl
  | cons p rest ih =>
    intro row row2 t c h
    obtain ⟨i, ch⟩ := p
    rw [applyPositions] at h
    split at h
    · cases h
    · rename_i nd ns hm
      split at h
      · cases h
      · rename_i key hk
        split at h
        · cases h
        · rename_i key2 did hs
          split at h
          · cases h
          · rename_i row3 t3 c3 hrec
            have ht3 := ih (row.set i key2) row3 t3 c3 hrec
            cases h
            simp only [List.length_cons]
            omega

/-- Claim C10: whenever the `de_DE` fixed-position fallback succeeds, it
reports at least 26 touched keys (it errors out rather than skipping any of
the 26 base-letter positions), so a successful fallback never reports zero. -/
theorem position_fallback_touches_at_least_26 (base : JVal) (m : LetterMap)
    (r : JVal) (t c : Nat)
    (h : apply_mapping_by_position_de_de base m = .ok (r, t, c)) :
    26 ≤ t ∧ 0 < t := by
  rw [apply_mapping_by_position_de_de] at h
  split at h
  · cases h
  · rename_i bo hbo
    split at h
    · cases h
    · rename_i rows hrows
      split at h
      · cases h
      · split at h
        · cases h
        · rename_i row0 hrow0
          split at h
          · cases h
          · rename_i row1 hrow1
            split at h
            · cases h
            · rename_i row2 hrow2
              split at h
              · cases h
              · split at h
                · cases h
                · split at h
                  · cases h
                  · split at h
                    · cases h
                    · rename_i row0b t0 c0 h0
                      split at h
                      · cases h
                      · rename_i row1b t1 c1 hp1
                        split at h
                        · cases h
                        · rename_i row2b t2 c2 hp2
                          cases h
                          have ht0 := applyPositions_touched m _ row0 row0b t0 c0 h0
                          have ht1 := applyPositions_touched m _ row1 row1b t1 c1 hp1
                          have ht2 := applyPositions_touched m _ row2 row2b t2 c2 hp2
                          have hl0 : 10 ≤ ((row0_positions_de.take 10) ++
                              (if 11 ≤ row0.length then [((10 : Nat), 'ü')]
                               else [])).length := by
                            rw [List.length_append]
                            have : (row0_positions_de.take 10).length = 10 := by decide
                            omega
                          have hl1 : 9 ≤ ((row1_positions_de.take 9) ++
                              (if 11 ≤ row1.length then [((9 : Nat), 'ö'), ((10 : Nat), 'ä')]
                               else [])).length := by
                            rw [List.length_append]
                            have : (row1_positions_de.take 9).length = 9 := by decide
                            omega
                          have hl2 : row2_positions_de.length = 7 := by decide
                          omega

/-- Witness for claim C10 at a concrete full-width base document and mapping. -/
theorem position_fallback_touches_at_least_26_witness :
    26 ≤ (26 : Nat) ∧ 0 < (26 : Nat) :=
  position_fallback_touches_at_least_26 beforeC5 mappingA rC10 26 26 (by rfl)

/-- Claim C5 counterexample: on the scan path the run aborts with "mapping
touched 0 keys" for a supported locale even though the fixed-position fallback
could run and would report 26 touched keys — the fallback is never applied to
the chosen candidate because `compute_after` is called with the fallback
disabled there. -/
theorem scan_path_skips_position_fallback :
    runModel codecC5 "de_DE" overA false false wC5 =
      (.err "mapping touched 0 keys (base layout unexpected?)", wC5) ∧
    fallbackTouchedC5 = 26 := by
  constructor
  · decide
  · decide

/-- Claim C5 (amended): when the primary policy touches zero keys, the
fixed-position fallback is applied only when the caller allowed it: with the
fallback disabled (the scan path) `compute_after` returns the primary result
unchanged, and with it enabled (the state-hit path) `compute_after` returns
exactly the fallback's result on the primary's output document. -/
theorem compute_after_fallback_gate (b : JVal) (m : LetterMap) (loc : String)
    (a : JVal) (ch : Nat)
    (h : apply_mapping_by_base_letter b m = .ok (a, 0, ch)) :
    compute_after b m loc false = .ok (a, 0, ch) ∧
    compute_after b m loc true = apply_mapping_by_position loc a m := by
  constructor
  · rw [compute_after, h]
    simp
  · rw [compute_after, h]
    simp

/-- Witness for the amended claim C5 at a concrete zero-touch document. -/
theorem compute_after_fallback_gate_witness :
    compute_after beforeC5 mappingA "de_DE" false = .ok (aC5, 0, 0) ∧
    compute_after beforeC5 mappingA "de_DE" true =
      apply_mapping_by_position "de_DE" aC5 mappingA :=
  compute_after_fallback_gate beforeC5 mappingA "de_DE" aC5 0 (by rfl)

/-- Invariants of the inner capacity loop of the scanner: every produced entry
sits at this header, carries one of the offered capacities, passed the size,
bounds and magic filters, its pair is fresh with respect to `seen` and
recorded in the returned `seen`, and the entries are pairwise distinct. -/
theorem scanCaps_spec (c : Codec) (bytes : List Nat) (hdr : Nat) :
    ∀ (caps : List Nat) (seen : List (Nat × Nat)),
      (∀ x ∈ seen, x ∈ (scanCaps c bytes hdr caps seen).2) ∧
      (∀ e ∈ (scanCaps c bytes hdr caps seen).1,
        e.1 = hdr ∧ e.2.1 ∈ caps ∧ 80 ≤ e.2.1 ∧ e.2.1 ≤ 20000 ∧
        hdr + 4 + e.2.1 ≤ bytes.length ∧
        startsWithBytes (sliceBytes bytes (hdr + 4) e.2.1) MAGIC_ZSTD = true ∧
        (e.1, e.2.1) ∉ seen ∧ (e.1, e.2.1) ∈ (scanCaps c bytes hdr caps seen).2) ∧
      (scanCaps c bytes hdr caps seen).1.Pairwise
        (fun a b => (a.1, a.2.1) ≠ (b.1, b.2.1)) := by
  intro caps
  induction caps with
  | nil =>
    intro seen
    refine ⟨?_, ?_, ?_⟩
    · intro x hx; exact hx
    · intro e he; cases he
    · exact List.Pairwise.nil
  | cons cap rest ih =>
    intro seen
    rw [scanCaps]
    by_cases h1 : cap < 80 ∨ 20000 < cap
    · rw [if_pos h1]
      obtain ⟨ihm, ihe, ihp⟩ := ih seen
      refine ⟨ihm, ?_, ihp⟩
      intro e he
      obtain ⟨q1, q2, q⟩ := ihe e he
      exact ⟨q1, List.mem_cons_of_mem cap q2, q⟩
    · rw [if_neg h1]
      by_cases h2 : (hdr, cap) ∈ seen
      · rw [if_pos h2]
        obtain ⟨ihm, ihe, ihp⟩ := ih seen
        refine ⟨ihm, ?_, ihp⟩
        intro e he
        obtain ⟨q1, q2, q⟩ := ihe e he
        exact ⟨q1, List.mem_cons_of_mem cap q2, q⟩
      · rw [if_neg h2]
        obtain ⟨ihm, ihe, ihp⟩ := ih ((hdr, cap) :: seen)
        have hmono : ∀ x ∈ seen, x ∈ (scanCaps c bytes hdr rest ((hdr, cap) :: seen)).2 :=
          fun x hx => ihm x (List.mem_cons_of_mem _ hx)
        have htail : ∀ e ∈ (scanCaps c bytes hdr rest ((hdr, cap) :: seen)).1,
            e.1 = hdr ∧ e.2.1 ∈ cap :: rest ∧ 80 ≤ e.2.1 ∧ e.2.1 ≤ 20000 ∧
            hdr + 4 + e.2.1 ≤ bytes.length ∧
            startsWithBytes (sliceBytes bytes (hdr + 4) e.2.1) MAGIC_ZSTD = true ∧
            (e.1, e.2.1) ∉ seen ∧
            (e.1, e.2.1) ∈ (scanCaps c bytes hdr rest ((hdr, cap) :: seen)).2 := by
          intro e he
          obtain ⟨q1, q2, q3, q4, q5, q6, q7, q8⟩ := ihe e he
          exact ⟨q1, List.mem_cons_of_mem cap q2, q3, q4, q5, q6,
            fun hx => q7 (List.mem_cons_of_mem _ hx), q8⟩
        by_cases h3 : bytes.length < hdr + 4 + cap
        · rw [if_pos h3]
          exact ⟨hmono, htail, ihp⟩
        · rw [if_neg h3]
          by_cases h4 : ¬ startsWithBytes (sliceBytes bytes (hdr + 4) cap) MAGIC_ZSTD
          · rw [if_pos h4]
            exact ⟨hmono, htail, ihp⟩
          · rw [if_neg h4]
            rcases hdec : decode_payload c (sliceBytes bytes (hdr + 4) cap) with _ | v
            · exact ⟨hmono, htail, ihp⟩
            · dsimp only
              by_cases h5 : ((getField v "alphabetic").bind asArray).isNone = true
              · rw [if_pos h5]
                exact ⟨hmono, htail, ihp⟩
              · rw [if_neg h5]
                refine ⟨hmono, ?_, ?_⟩
                · intro e he
                  rcases List.mem_cons.mp he with hh | ht
                  · subst hh
                    dsimp only
                    refine ⟨rfl, List.mem_cons_self cap rest, (by omega), (by omega),
                      (by omega), (by simpa using h4), h2,
                      ihm (hdr, cap) (List.mem_cons_self _ seen)⟩
                  · exact htail e ht
                · refine List.Pairwise.cons ?_ ihp
                  intro b hb hcontra
                  have hbnot := (ihe b hb).2.2.2.2.2.2.1
                  apply hbnot
                  rw [← hcontra]
                  exact List.mem_cons_self _ seen

/-- Invariants of the scanner's outer loop: every entry satisfies
`scanEntryOK` and is fresh with respect to `seen`, and entries are pairwise
distinct by `(header_offset, capacity)`. -/
theorem scanGo_spec (c : Codec) (bytes : List Nat) :
    ∀ (hits : List Nat) (seen : List (Nat × Nat)),
      (∀ e ∈ scanGo c bytes hits seen, scanEntryOK bytes e ∧ (e.1, e.2.1) ∉ seen) ∧
      (scanGo c bytes hits seen).Pairwise (fun a b => (a.1, a.2.1) ≠ (b.1, b.2.1)) := by
  intro hits
  induction hits with
  | nil =>
    intro seen
    exact ⟨fun e he => absurd he (List.not_mem_nil e), List.Pairwise.nil⟩
  | cons hit rest ih =>
    intro seen
    rw [scanGo]
    by_cases h1 : hit < 4
    · rw [if_pos h1]
      exact ih seen
    · rw [if_neg h1]
      obtain ⟨capm, cape, capp⟩ := scanCaps_spec c bytes (hit - 4)
        (hdrCaps bytes (hit - 4)) seen
      obtain ⟨ihe, ihp⟩ := ih (scanCaps c bytes (hit - 4) (hdrCaps bytes (hit - 4)) seen).2
      constructor
      · intro e he
        rcases List.mem_append.mp he with hl | hr
        · obtain ⟨q1, q2, q3, q4, q5, q6, q7, q8⟩ := cape e hl
          rw [hdrCaps] at q2
          have hbele : read_u32_be bytes (hit - 4) = some e.2.1 ∨
              read_u32_le bytes (hit - 4) = some e.2.1 := by
            rcases List.mem_cons.mp q2 with hbe | hle
            · left
              rcases hbe2 : read_u32_be bytes (hit - 4) with _ | x
              · exfalso
                rw [hbe2] at hbe
                simp at hbe
                omega
              · rw [hbe2] at hbe
                simp at hbe
                rw [hbe]
            · right
              rcases List.mem_cons.mp hle with hle2 | hnil
              · rcases hle3 : read_u32_le bytes (hit - 4) with _ | x
                · exfalso
                  rw [hle3] at hle2
                  simp at hle2
                  omega
                · rw [hle3] at hle2
                  simp at hle2
                  rw [hle2]
              · cases hnil
          refine ⟨?_, q7⟩
          rw [scanEntryOK, q1]
          exact ⟨q5, q3, q4, hbele, q6⟩
        · obtain ⟨hok, hnot⟩ := ihe e hr
          exact ⟨hok, fun hx => hnot (capm (e.1, e.2.1) hx)⟩
      · rw [List.pairwise_append]
        refine ⟨capp, ihp, ?_⟩
        intro a ha b hb
        have ha8 := (cape a ha).2.2.2.2.2.2.2
        have hb7 := (ihe b hb).2
        intro hcontra
        apply hb7
        rw [← hcontra]
        exact ha8

/-- Claim C9: every region the blob scan returns satisfies the header/payload
bounds, the sane size window, one of the two endianness readings of the
4-byte capacity field, and the payload-magic filter; and the output's
`(header_offset, capacity)` pairs are pairwise distinct. -/
theorem scan_keyboard_json_invariants (c : Codec) (bytes : List Nat) :
    (∀ e ∈ scan_keyboard_json c bytes, scanEntryOK bytes e) ∧
    (scan_keyboard_json c bytes).Pairwise (fun a b => (a.1, a.2.1) ≠ (b.1, b.2.1)) := by
  obtain ⟨he, hp⟩ := scanGo_spec c bytes (scanHits bytes) []
  exact ⟨fun e hme => (he e hme).1, hp⟩

/-- Witness for claim C9 at a concrete buffer with one valid blob. -/
theorem scan_keyboard_json_invariants_witness :
    scanEntryOK bytesC9 (0, 80, docC9) ∧
    (scan_keyboard_json codecC9 bytesC9).Pairwise
      (fun a b => (a.1, a.2.1) ≠ (b.1, b.2.1)) := by
  have h := scan_keyboard_json_invariants codecC9 bytesC9
  refine ⟨h.1 (0, 80, docC9) ?_, h.2⟩
  rw [show scan_keyboard_json codecC9 bytesC9 = [(0, 80, docC9)] from rfl]
  exact List.mem_singleton.mpr rfl

/-- A `Patched` exit of `planAndPatch` records a state naming the patched
file's hash, the override hash and the locale under the current schema. -/
theorem planAndPatch_patched (c : Codec) (locale : String)
    (over_shaV orig_sha bytes2 : List Nat) (w : World) (hdr cap : Nat) (sig : String)
    (after : JVal) (newp : List Nat) (msg : String) (w2 : World)
    (h : planAndPatch c locale over_shaV orig_sha bytes2 w hdr cap sig after newp msg =
      (.ok .patched, w2)) :
    ∃ st, w2.state = some st ∧ st.schema = STATE_SCHEMA ∧
      st.patched_sha = c.hash w2.xochitl ∧ st.override_sha = over_shaV ∧
      st.locale = locale := by
  rw [planAndPatch] at h
  split at h
  · simp at h
  · split at h
    · simp at h
    · rename_i file2 htr
      have h2 : _ = w2 := congrArg Prod.snd h
      subst h2
      exact ⟨_, rfl, rfl, rfl, rfl, rfl⟩

/-- A `Patched` exit of the state-hit loop records a good state. -/
theorem stateHitLoop_patched (c : Codec) (locale : String) (mapping : LetterMap)
    (over_shaV sha_cur orig_sha bytes2 : List Nat) (w : World) :
    ∀ (hits : List PatchHit) (w2 : World),
      stateHitLoop c locale mapping over_shaV sha_cur orig_sha bytes2 w hits =
        some (.ok .patched, w2) →
      ∃ st, w2.state = some st ∧ st.schema = STATE_SCHEMA ∧
        st.patched_sha = c.hash w2.xochitl ∧ st.override_sha = over_shaV ∧
        st.locale = locale := by
  intro hits
  induction hits with
  | nil =>
    intro w2 h
    cases h
  | cons hh rest ih =>
    intro w2 h
    rw [stateHitLoop] at h
    split at h
    · exact ih w2 h
    · rename_i before hload
      split at h
      · simp at h
      · rename_i after touched changed hca
        split at h
        · simp at h
        · split at h
          · simp at h
          · split at h
            · simp at h
            · rename_i newp lvl2 pad2 hcomp
              have h2 := Option.some.inj h
              exact planAndPatch_patched c locale over_shaV orig_sha bytes2 w
                hh.hdr_off hh.cap (signature_string before) after newp
                "state-hit range out of file bounds" w2 h2

/-- A `Patched` exit of the scan tail records a good state. -/
theorem scanApply_patched (c : Codec) (locale : String) (mapping : LetterMap)
    (over_shaV sha_cur : List Nat) (w : World) (chosen : Cand) (w2 : World)
    (h : scanApply c locale mapping over_shaV sha_cur w chosen = (.ok .patched, w2)) :
    ∃ st, w2.state = some st ∧ st.schema = STATE_SCHEMA ∧
      st.patched_sha = c.hash w2.xochitl ∧ st.override_sha = over_shaV ∧
      st.locale = locale := by
  rw [scanApply] at h
  split at h
  · simp at h
  · rename_i after touched changed hca
    split at h
    · simp at h
    · split at h
      · simp at h
      · split at h
        · simp at h
        · split at h
          · simp at h
          · rename_i newp lvl2 pad2 hcomp
            exact planAndPatch_patched c locale over_shaV sha_cur w.xochitl w
              chosen.hdr_off chosen.cap
              (chosen.sig0 ++ "|" ++ chosen.sig1 ++ "|" ++ chosen.sig2) after newp
              "candidate range out of file bounds" w2 h

/-- A `Patched` exit of the scan phase records a good state. -/
theorem scanPhase_patched (c : Codec) (locale : String) (mapping : LetterMap)
    (over_shaV sha_cur : List Nat) (w : World) (w2 : World)
    (h : scanPhase c locale mapping over_shaV sha_cur w = (.ok .patched, w2)) :
    ∃ st, w2.state = some st ∧ st.schema = STATE_SCHEMA ∧
      st.patched_sha = c.hash w2.xochitl ∧ st.override_sha = over_shaV ∧
      st.locale = locale := by
  rw [scanPhase] at h
  split at h
  · simp at h
  · split at h
    · simp at h
    · split at h
      · simp at h
      · split at h
        · simp at h
        · rename_i chosen rest2 hsort
          exact scanApply_patched c locale mapping over_shaV sha_cur w chosen w2 h

/-- A `Patched` run validated the override, built a mapping, and left a good
state behind. -/
theorem runModel_patched_state (c : Codec) (locale : String) (over : JVal)
    (w w2 : World)
    (h : runModel c locale over false false w = (.ok .patched, w2)) :
    validate_override over = .ok () ∧
    (∃ m, build_letter_mapping locale over = .ok m) ∧
    goodState c over locale w2 := by
  rw [runModel] at h
  split at h
  · simp at h
  · rename_i u hval
    split at h
    · simp at h
    · rename_i mapping hmap
      cases u
      refine ⟨hval, ⟨mapping, hmap⟩, ?_⟩
      rw [if_neg (by simp)] at h
      split at h
      · simp at h
      · split at h
        · rename_i st hguard
          split at h
          · rename_i res hloop
            subst h
            exact stateHitLoop_patched c locale mapping (overSha c over)
              (c.hash w.xochitl) st.orig_sha w.xochitl w (st.hits.take 4) w2 hloop
          · exact scanPhase_patched c locale mapping (overSha c over)
              (c.hash w.xochitl) w w2 h
        · exact scanPhase_patched c locale mapping (overSha c over)
            (c.hash w.xochitl) w w2 h

/-- A run over a good state with the same override and locale is a no-op. -/
theorem runModel_noop_of_goodState (c : Codec) (locale : String) (over : JVal)
    (w2 : World) (mapping : LetterMap)
    (hval : validate_override over = .ok ())
    (hmap : build_letter_mapping locale over = .ok mapping)
    (hgs : goodState c over locale w2) :
    runModel c locale over false false w2 = (.ok .unchanged, w2) := by
  obtain ⟨st, hst, hschema, hsha, hover, hloc⟩ := hgs
  have hsm : stateMatches w2.state (c.hash w2.xochitl) (overSha c over) locale = true := by
    rw [hst, stateMatches]
    simp [hschema, hsha, hover, hloc]
  rw [runModel, hval]
  dsimp only
  rw [hmap]
  dsimp only
  rw [if_neg (by simp), if_pos ⟨rfl, hsm⟩]

/-- Claim C4: after a run that returns `Patched`, an immediately following run
with the identical artifact, override and locale returns `Unchanged` and
leaves the whole world — in particular the artifact bytes — untouched. -/
theorem run_twice_noop (c : Codec) (locale : String) (over : JVal) (w w2 : World)
    (h : runModel c locale over false false w = (.ok .patched, w2)) :
    runModel c locale over false false w2 = (.ok .unchanged, w2) := by
  obtain ⟨hval, ⟨mapping, hmap⟩, hgs⟩ := runModel_patched_state c locale over w w2 h
  exact runModel_noop_of_goodState c locale over w2 mapping hval hmap hgs

/-- Witness for claim C4: a concrete world on which the first run patches and
the second run is a byte-identical no-op. -/
theorem run_twice_noop_witness :
    runModel codecA "de_DE" overA false false w1A = (.ok .unchanged, w1A) :=
  run_twice_noop codecA "de_DE" overA w0A w1A (by decide)

end Kbd
